import Mathlib

/-
Formal model of `scripts/fetch_feeds.py`: a script that fetches a list of
RSS/Atom feeds, repairs and parses each body, extracts normalized article
records, and merges the per-feed results into one aggregate output with a
per-feed cache.  Every definition below is a shallow embedding of the
corresponding Python function; theorems settle the specification's claims
about them.  Python strings are modelled as `String`/`List Char` (sequences
of code points), Python `None`-able values as `Option`, and Python standard
library services (HTTP, `xml.etree`, `html.unescape`, the two date parsers)
as explicit function parameters or outcome values.
-/

set_option autoImplicit false

namespace Feed

/-! ### Character classes used by the sanitizer -/

/-- `[0-9a-fA-F]`, the hex-digit class of the numeric-entity pattern. -/
def isHexChar (c : Char) : Bool :=
  c.isDigit || ('a' ≤ c && c ≤ 'f') || ('A' ≤ c && c ≤ 'F')

/-- The control characters removed before parsing:
`[\x00-\x08\x0b\x0c\x0e-\x1f]` (fetch_feeds.py line 208). -/
def isIllegalCtl (c : Char) : Bool :=
  (c.toNat ≤ 0x08) || (c.toNat == 0x0B) || (c.toNat == 0x0C) ||
    (0x0E ≤ c.toNat && c.toNat ≤ 0x1F)

/-! ### The bare-ampersand repair
`re.sub(r"&(?!(?:amp|lt|gt|apos|quot|#\d+|#x[0-9a-fA-F]+);)", "&amp;", text)`
(fetch_feeds.py lines 210-211).  `entSpan l` returns the characters matched
by the look-ahead `(?:amp|lt|gt|apos|quot|#\d+|#x[0-9a-fA-F]+);` at the head
of `l` (the text following a `&`), or `none` when the look-ahead fails. -/

/-- The five named entity bodies of the look-ahead, in the regex's
alternation order, each including the closing `;`. -/
def namedEnts : List (List Char) :=
  [['a', 'm', 'p', ';'], ['l', 't', ';'], ['g', 't', ';'],
   ['a', 'p', 'o', 's', ';'], ['q', 'u', 'o', 't', ';']]

/-- Literal prefix test used by the look-ahead matcher. -/
def prefOf : List Char → List Char → Bool
  | [], _ => true
  | _ :: _, [] => false
  | a :: as, b :: bs => a == b && prefOf as bs

/-- First named entity body that is a prefix of `l`. -/
def findNamed : List (List Char) → List Char → Option (List Char)
  | [], _ => none
  | e :: es, l => if prefOf e l then some e else findNamed es l

/-- `#\d+;` after the leading `#` has been consumed: one or more decimal
digits followed by `;`. -/
def digitEnt (rest : List Char) : Option (List Char) :=
  let ds := rest.takeWhile Char.isDigit
  if ds.isEmpty then none
  else if (rest.dropWhile Char.isDigit).head? = some ';' then
    some ('#' :: ds ++ [';'])
  else none

/-- `#x[0-9a-fA-F]+;` after the leading `#x` has been consumed. -/
def hexEnt (rest2 : List Char) : Option (List Char) :=
  let ds := rest2.takeWhile isHexChar
  if ds.isEmpty then none
  else if (rest2.dropWhile isHexChar).head? = some ';' then
    some ('#' :: 'x' :: ds ++ [';'])
  else none

/-- The numeric alternatives `#\d+;` and `#x[0-9a-fA-F]+;`. -/
def numEnt (l : List Char) : Option (List Char) :=
  if l.head? = some '#' then
    if l.tail.head? = some 'x' then hexEnt l.tail.tail else digitEnt l.tail
  else none

/-- The full look-ahead: the recognized entity reference at the head of `l`,
if any. -/
def entSpan (l : List Char) : Option (List Char) :=
  match findNamed namedEnts l with
  | some e => some e
  | none => numEnt l

/-- The substitution itself: every `&` whose tail does not start with a
recognized entity reference is replaced by `&amp;`. -/
def escAmp : List Char → List Char
  | [] => []
  | c :: rest =>
    if c = '&' then
      if (entSpan rest).isSome then c :: escAmp rest
      else '&' :: 'a' :: 'm' :: 'p' :: ';' :: escAmp rest
    else c :: escAmp rest

/-- `ampOk l` holds when every `&` in `l` is immediately followed by a
recognized entity reference. -/
def ampOk : List Char → Bool
  | [] => true
  | c :: rest => (c != '&' || (entSpan rest).isSome) && ampOk rest

/-- BOM strip: `text.lstrip("﻿")` (fetch_feeds.py line 207). -/
def lstripBOM (l : List Char) : List Char := l.dropWhile (· = '﻿')

/-- Control-character strip (fetch_feeds.py line 208). -/
def stripCtl (l : List Char) : List Char := l.filter (fun c => !isIllegalCtl c)

/-- The two-step repair pass of fetch_feeds.py lines 208-211:
control-character stripping followed by bare-ampersand escaping. -/
def sanitizePass (l : List Char) : List Char := escAmp (stripCtl l)

/-- The full text repair of fetch_feeds.py lines 206-211 (BOM strip, then
the two-step pass), as applied to the decoded body before XML parsing. -/
def sanitize (text : String) : String := ⟨sanitizePass (lstripBOM text.data)⟩

/-! ### XML element trees
`xml.etree.ElementTree` elements as seen by the parser: a tag, an attribute
list, the text before the first child, and the child elements, in document
order.  Namespaced tags are the usual ElementTree `{uri}local` strings. -/

inductive Elem where
  | mk : String → List (String × String) → Option String → List Elem → Elem

def Elem.tag : Elem → String
  | .mk t _ _ _ => t

def Elem.attrs : Elem → List (String × String)
  | .mk _ a _ _ => a

def Elem.text : Elem → Option String
  | .mk _ _ x _ => x

def Elem.children : Elem → List Elem
  | .mk _ _ _ cs => cs

mutual

/-- `element.iter(tag)`: all elements of the subtree (the element itself
included) whose tag equals `tag` exactly, in document (preorder) order. -/
def iterTag (tag : String) : Elem → List Elem
  | .mk t a x cs =>
    (if t = tag then [Elem.mk t a x cs] else []) ++ iterTagList tag cs

def iterTagList (tag : String) : List Elem → List Elem
  | [] => []
  | c :: cs => iterTag tag c ++ iterTagList tag cs

end

mutual

/-- Specification-side preorder (document-order) traversal of a tree,
used to state what "document order" means independently of `iterTag`. -/
def preorder : Elem → List Elem
  | .mk t a x cs => Elem.mk t a x cs :: preorderList cs

def preorderList : List Elem → List Elem
  | [] => []
  | c :: cs => preorder c ++ preorderList cs

end

/-- `element.get(key, dflt)`: attribute lookup with a default. -/
def attrGet (e : Elem) (key dflt : String) : String :=
  match e.attrs.find? (fun p => p.1 = key) with
  | some p => p.2
  | none => dflt

/-- Python `str.strip()` on a character list: drop whitespace from both
ends. -/
def pyStrip (l : List Char) : List Char :=
  ((l.dropWhile Char.isWhitespace).reverse.dropWhile Char.isWhitespace).reverse

/-- Python `str.strip()` on a string. -/
def pyStripStr (s : String) : String := ⟨pyStrip s.data⟩

/-- `_el_text(parent, tag)` (fetch_feeds.py lines 56-61): trimmed text of the
first direct child with the given tag, or `None`.  Python's truthiness test
`child.text` rejects both `None` and the empty string before stripping. -/
def el_text (parent : Elem) (tag : String) : Option String :=
  match parent.children.find? (fun c => c.tag = tag) with
  | some c =>
    match c.text with
    | some t => if t = "" then none else some (pyStripStr t)
    | none => none
  | none => none

/-- Python `a or b` for an optional string `a` and a string default `b`:
`a` wins unless it is `None` or empty. -/
def pyOr (x : Option String) (d : String) : String :=
  match x with
  | some s => if s = "" then d else s
  | none => d

/-- Python `a or b` where both operands are optional strings. -/
def pyOrO (x y : Option String) : Option String :=
  match x with
  | some s => if s = "" then y else some s
  | none => y

/-! ### Date normalization (fetch_feeds.py lines 64-85)
The two standard-library date parsers are modelled as parameters:
`rfc raw` stands for `parsedate_to_datetime(raw).isoformat()` with any
exception mapped to `none`, and `strp fmt raw` stands for
`datetime.strptime(raw, fmt).isoformat()` with `ValueError` mapped to
`none`. -/

/-- The fixed ISO-8601-like format sequence tried after the RFC-822 parse,
in source order (fetch_feeds.py lines 74-80). -/
def isoFormats : List String :=
  ["%Y-%m-%dT%H:%M:%S%z", "%Y-%m-%dT%H:%M:%SZ", "%Y-%m-%dT%H:%M:%S.%f%z",
   "%Y-%m-%d %H:%M:%S%z", "%Y-%m-%d"]

/-- The `for fmt in (...)` loop: first format whose parse succeeds wins. -/
def tryFormats (strp : String → String → Option String) (s : String) :
    List String → Option String
  | [] => none
  | fmt :: fmts =>
    match strp fmt s with
    | some iso => some iso
    | none => tryFormats strp s fmts

/-- `normalize_date` (fetch_feeds.py lines 64-85): `None` for `None` or
empty input; else the RFC-822 parse of the stripped input, else the first
matching ISO format, else the raw input unchanged. -/
def normalize_date (rfc : String → Option String)
    (strp : String → String → Option String) (raw : Option String) :
    Option String :=
  match raw with
  | none => none
  | some s =>
    if s = "" then none
    else
      match rfc (pyStripStr s) with
      | some iso => some iso
      | none =>
        match tryFormats strp (pyStripStr s) isoFormats with
        | some iso => some iso
        | none => some s

/-- First defined value of a list of attempts (used only to restate the
claimed contract of `normalize_date`). -/
def firstSome : List (Option String) → Option String
  | [] => none
  | o :: os =>
    match o with
    | some v => some v
    | none => firstSome os

/-- The date-normalization contract exactly as the specification words it:
none for none/empty, otherwise RFC-822 first, then the fixed ISO patterns
in order, the first full match winning, and the raw input passed through
unchanged when every attempt fails. -/
def claimDateContract (rfc : String → Option String)
    (strp : String → String → Option String) (raw : Option String) :
    Option String :=
  match raw with
  | none => none
  | some s =>
    if s = "" then none
    else some ((firstSome (rfc (pyStripStr s) :: isoFormats.map (fun fmt => strp fmt (pyStripStr s)))).getD s)

/-! ### HTML stripping (fetch_feeds.py lines 49-53)
`html.unescape` is standard library; it is a parameter `unescape` below. -/

/-- One left-to-right pass of `re.sub(r"<[^>]+>", " ", text)`.  The flag
records that the scanner is inside a span that is known to close: a `<`
whose tail holds a non-empty `>`-free body followed by `>` emits one space
and skips up to and including that `>`; a `<` with an empty body (`<>`) or
with no `>` ahead stays literal, as the regex leaves it unmatched. -/
def stripTagsAux : Bool → List Char → List Char
  | true, [] => []
  | true, c :: rest =>
    if c = '>' then stripTagsAux false rest else stripTagsAux true rest
  | false, [] => []
  | false, c :: rest =>
    if c = '<' then
      if (rest.takeWhile (· ≠ '>')).isEmpty then '<' :: stripTagsAux false rest
      else if (rest.dropWhile (· ≠ '>')).isEmpty then '<' :: stripTagsAux false rest
      else ' ' :: stripTagsAux true rest
    else c :: stripTagsAux false rest

/-- `re.sub(r"<[^>]+>", " ", text)`: each tag span becomes a single space. -/
def stripTags (l : List Char) : List Char := stripTagsAux false l

/-- One pass of `re.sub(r"\s+", " ", text)`; the flag records whether the
previous character was whitespace (a run's first whitespace character emits
one space, the rest of the run emits nothing). -/
def collapseWsAux : Bool → List Char → List Char
  | _, [] => []
  | prevWs, c :: rest =>
    if c.isWhitespace then
      if prevWs then collapseWsAux true rest else ' ' :: collapseWsAux true rest
    else c :: collapseWsAux false rest

/-- `re.sub(r"\s+", " ", text)`: each maximal whitespace run becomes a
single space. -/
def collapseWs (l : List Char) : List Char := collapseWsAux false l

/-- `strip_html` (fetch_feeds.py lines 49-53): drop tag spans, decode HTML
entities (the standard library `html.unescape`, passed in as `unescape`),
collapse whitespace runs, trim the edges. -/
def strip_html (unescape : String → String) (text : String) : String :=
  ⟨pyStrip (collapseWs (unescape ⟨stripTags text.data⟩).data)⟩

/-- Python slicing `s[:n]`: the first `n` code points of `s`. -/
def pyTake (s : String) (n : Nat) : String := ⟨s.data.take n⟩

/-! ### Article records and feed parsing (fetch_feeds.py lines 89-156) -/

/-- `EXCERPT_LEN = 300` (fetch_feeds.py line 26). -/
def EXCERPT_LEN : Nat := 300

/-- The Dublin-Core namespace wrapper `{http://purl.org/dc/elements/1.1/}`. -/
def dcNS : String := "{http://purl.org/dc/elements/1.1/}"

/-- The RSS content-module namespace wrapper. -/
def contentNS : String := "{http://purl.org/rss/1.0/modules/content/}"

structure Article where
  feed : String
  title : String
  link : String
  date : Option String
  excerpt : String
  author : String
deriving DecidableEq, Repr

structure FeedConfig where
  name : String
  url : String
deriving DecidableEq, Repr

structure CacheEntry where
  etag : Option String
  last_modified : Option String
  articles : List Article
deriving DecidableEq, Repr

/-- The per-feed result dictionary of `fetch_feed`.  The 304 branch is the
only one that puts `not_modified` in the dictionary; elsewhere
`r.get("not_modified")` is falsy, modelled as `false`. -/
structure FetchResult where
  feed : String
  articles : List Article
  error : Option String
  etag : Option String
  last_modified : Option String
  not_modified : Bool
deriving DecidableEq, Repr

/-- The loop body of `parse_rss` (fetch_feeds.py lines 92-113): one article
per `item` element, with the source's exact fallback chains. -/
def rssItemArticle (unescape : String → String) (rfc : String → Option String)
    (strp : String → String → Option String) (feed_name : String)
    (item : Elem) : Article :=
  { feed := feed_name
    title := pyOr (el_text item "title") "Untitled"
    link := pyOr (el_text item "link") "#"
    date := normalize_date rfc strp
      (pyOrO (el_text item "pubDate") (el_text item (dcNS ++ "date")))
    excerpt := pyTake
      (strip_html unescape
        (pyOr (pyOrO (el_text item (contentNS ++ "encoded"))
          (el_text item "description")) ""))
      EXCERPT_LEN
    author := pyOr (pyOrO (el_text item "author")
      (el_text item (dcNS ++ "creator"))) "" }

/-- `parse_rss` (fetch_feeds.py lines 89-115): one article per `item`
element found anywhere in the tree via `root.iter("item")`. -/
def parse_rss (unescape : String → String) (rfc : String → Option String)
    (strp : String → String → Option String) (root : Elem)
    (feed_name : String) : List Article :=
  (iterTag "item" root).map (rssItemArticle unescape rfc strp feed_name)

/-- Namespace detection of `parse_atom` (fetch_feeds.py lines 120-122):
`root.tag.split("}")[0] + "}"` when the tag starts with `{`, else `""`. -/
def nsOf (root : Elem) : String :=
  if root.tag.data.head? = some '{' then
    ⟨root.tag.data.takeWhile (· ≠ '}') ++ ['}']⟩
  else ""

/-- The link-selection loop of `parse_atom` (fetch_feeds.py lines 128-135),
with `link` the running value (initially `"#"`): break on the first link
whose `rel` defaults to or equals `"alternate"` and whose `href` is
non-empty; otherwise remember the first non-empty `href` seen while the
running value is still `"#"`. -/
def atomLink : List Elem → String → String
  | [], link => link
  | l :: ls, link =>
    if (attrGet l "rel" "alternate" == "alternate") && (attrGet l "href" "" != "") then
      attrGet l "href" ""
    else
      atomLink ls
        (if (attrGet l "href" "" != "") && (link == "#") then attrGet l "href" ""
         else link)

/-- The loop body of `parse_atom` (fetch_feeds.py lines 125-154): one
article per `entry` element under the detected namespace. -/
def atomEntryArticle (unescape : String → String)
    (rfc : String → Option String) (strp : String → String → Option String)
    (ns feed_name : String) (entry : Elem) : Article :=
  { feed := feed_name
    title := pyOr (el_text entry (ns ++ "title")) "Untitled"
    link := atomLink (iterTag (ns ++ "link") entry) "#"
    date := normalize_date rfc strp
      (pyOrO (el_text entry (ns ++ "updated")) (el_text entry (ns ++ "published")))
    excerpt := pyTake
      (strip_html unescape
        (pyOr (pyOrO (el_text entry (ns ++ "content"))
          (el_text entry (ns ++ "summary"))) ""))
      EXCERPT_LEN
    author :=
      match entry.children.find? (fun c => c.tag = ns ++ "author") with
      | some ael => pyOr (el_text ael (ns ++ "name")) ""
      | none => "" }

/-- `parse_atom` (fetch_feeds.py lines 118-156). -/
def parse_atom (unescape : String → String) (rfc : String → Option String)
    (strp : String → String → Option String) (root : Elem)
    (feed_name : String) : List Article :=
  (iterTag (nsOf root ++ "entry") root).map
    (atomEntryArticle unescape rfc strp (nsOf root) feed_name)

/-! ### Specification-side definitions used to state the claims -/

/-- Local part of an ElementTree tag: strips a `{uri}` namespace wrapper. -/
def localName (tag : String) : String :=
  if tag.data.head? = some '{' then ⟨(tag.data.dropWhile (· ≠ '}')).drop 1⟩
  else tag

/-- The claim's count of `item` elements "anywhere in the tree and
regardless of any XML namespace on the item elements". -/
def claimItemCountAnyNS (root : Elem) : Nat :=
  ((preorder root).filter (fun e => localName e.tag = "item")).length

/-- The preferred-link test of the claim: `rel` absent or `"alternate"`,
and a non-empty `href`. -/
def claimQual (l : Elem) : Bool :=
  (attrGet l "rel" "alternate" == "alternate") && (attrGet l "href" "" != "")

/-- Any non-empty `href` (the claim's fallback test). -/
def anyHref (l : Elem) : Bool := attrGet l "href" "" != ""

/-- The fallback the loop actually implements: a non-empty `href` that also
differs from the sentinel `"#"`. -/
def fbHref (l : Elem) : Bool :=
  (attrGet l "href" "" != "") && (attrGet l "href" "" != "#")

/-- C6's link-selection contract exactly as the claim words it: the first
link whose `rel` is absent or `"alternate"` with a non-empty `href`; else
the first link with any non-empty `href`; else `"#"`. -/
def claimAtomLink (links : List Elem) : String :=
  match links.find? claimQual with
  | some l => attrGet l "href" ""
  | none =>
    match links.find? anyHref with
    | some l => attrGet l "href" ""
    | none => "#"

/-- The link selection the loop actually implements: as `claimAtomLink`,
except that the fallback is the first link whose `href` is non-empty and
different from `"#"` (storing `"#"` into the running variable is
indistinguishable from leaving it unset). -/
def codeAtomLink (links : List Elem) : String :=
  match links.find? claimQual with
  | some l => attrGet l "href" ""
  | none =>
    match links.find? fbHref with
    | some l => attrGet l "href" ""
    | none => "#"

/-! ### Fetching one feed (fetch_feeds.py lines 160-224)
The network and the XML parser are external: an `HttpOutcome` is what the
`urlopen` transaction produced (an HTTP 304, any other failure mapped to an
exception message, or a decoded body with optional validator headers), and
`xmlParse` stands for `ET.fromstring`, `ParseError` mapped to `.error`.
The UTF-8/Latin-1 decode step cannot fail (Latin-1 accepts every byte), so
bodies are modelled as already decoded text. -/

inductive HttpOutcome where
  | httpNotModified
  | httpFailure (msg : String)
  | httpSuccess (body : String) (etag : Option String) (last_modified : Option String)
deriving DecidableEq, Repr

/-- `fetch_feed` (fetch_feeds.py lines 160-224). -/
def fetch_feed (xmlParse : String → Except String Elem)
    (unescape : String → String) (rfc : String → Option String)
    (strp : String → String → Option String) (outcome : HttpOutcome)
    (feed : FeedConfig) (cache : Option CacheEntry) : FetchResult :=
  match outcome with
  | .httpNotModified =>
    { feed := feed.name
      articles := match cache with | some c => c.articles | none => []
      error := none
      etag := cache.bind (·.etag)
      last_modified := cache.bind (·.last_modified)
      not_modified := true }
  | .httpFailure msg =>
    { feed := feed.name, articles := [], error := some msg, etag := none,
      last_modified := none, not_modified := false }
  | .httpSuccess body new_etag new_last_modified =>
    match xmlParse (sanitize body) with
    | .error e =>
      { feed := feed.name, articles := [], error := some ("XML parse error: " ++ e),
        etag := none, last_modified := none, not_modified := false }
    | .ok root =>
      { feed := feed.name
        articles :=
          if root.tag = "{http://www.w3.org/2005/Atom}feed" ∨ root.tag = "feed" then
            parse_atom unescape rfc strp root feed.name
          else
            parse_rss unescape rfc strp root feed.name
        error := none
        etag := new_etag
        last_modified := new_last_modified
        not_modified := false }

/-! ### The merge step of `main` (fetch_feeds.py lines 246-272)
`results` is the list of fetch results exactly in the order
`as_completed` yielded them (completion order).  The merge loop extends
`all_articles`, fills the error map for truthy `r["error"]`, and records a
fresh cache entry otherwise. -/

/-- Python truthiness of the `error` field as tested by `if r["error"]:`. -/
def errTruthy (e : Option String) : Bool :=
  match e with
  | none => false
  | some s => s ≠ ""

/-- `all_articles` after the merge loop. -/
def mergeArticles (results : List FetchResult) : List Article :=
  results.flatMap (·.articles)

/-- The `errors` mapping after the merge loop, in insertion order. -/
def mergeErrors (results : List FetchResult) : List (String × String) :=
  results.filterMap
    (fun r => if errTruthy r.error then some (r.feed, r.error.getD "") else none)

/-- The `new_feed_cache` mapping after the merge loop, in insertion order. -/
def mergeFeedCache (results : List FetchResult) : List (String × CacheEntry) :=
  results.filterMap
    (fun r =>
      if errTruthy r.error then none
      else some (r.feed,
        { etag := r.etag, last_modified := r.last_modified, articles := r.articles }))

/-! ### Concrete fixtures for counterexamples and witnesses -/

/-- Identity stand-in for `html.unescape` (entity-free inputs). -/
def idUnescape : String → String := fun s => s

/-- A `parsedate_to_datetime` environment in which every parse fails. -/
def noRfc : String → Option String := fun _ => none

/-- A `strptime` environment in which every parse fails. -/
def noStrp : String → String → Option String := fun _ _ => none

/-- Article fixture for feed "A". -/
def artA : Article :=
  { feed := "A", title := "a1", link := "#", date := none, excerpt := "", author := "" }

/-- Article fixture for feed "B". -/
def artB : Article :=
  { feed := "B", title := "b1", link := "#", date := none, excerpt := "", author := "" }

/-- Fetch-result fixture for feed "A". -/
def resA : FetchResult :=
  { feed := "A", articles := [artA], error := none, etag := none,
    last_modified := none, not_modified := false }

/-- Fetch-result fixture for feed "B". -/
def resB : FetchResult :=
  { feed := "B", articles := [artB], error := none, etag := none,
    last_modified := none, not_modified := false }

/-- RSS tree whose only item-like element carries a namespace. -/
def nsItemRoot : Elem :=
  Elem.mk "rss" [] none [Elem.mk "{urn:example}item" [] none []]

/-- Atom entry whose first non-empty `href` is literally `"#"`. -/
def hashEntry : Elem :=
  Elem.mk "entry" [] none
    [Elem.mk "link" [("rel", "self"), ("href", "#")] none [],
     Elem.mk "link" [("rel", "self"), ("href", "B")] none []]

/-- Atom root containing `hashEntry`. -/
def hashAtomRoot : Elem := Elem.mk "feed" [] none [hashEntry]

/-- Plain `item` element fixture. -/
def wItem : Elem :=
  Elem.mk "item" [] none
    [Elem.mk "title" [] (some "Hello") [],
     Elem.mk "link" [] (some "http://e.example/1") []]

/-- RSS tree with one plain `item` (used for witnesses). -/
def oneItemRoot : Elem :=
  Elem.mk "rss" [] none [Elem.mk "channel" [] none [wItem]]

/-- The article the RSS loop body produces from `wItem`. -/
def wArticle : Article := rssItemArticle idUnescape noRfc noStrp "f" wItem

/-- Fetch-result fixture for an erroring feed "E". -/
def resErr : FetchResult :=
  { feed := "E", articles := [], error := some "boom", etag := none,
    last_modified := none, not_modified := false }

/-! ### Properties of the ampersand repair -/
lemma prefOf_eq_append {e l : List Char} (h : prefOf e l = true) :
    ∃ r, l = e ++ r := by
  induction e generalizing l with
  | nil => exact ⟨l, rfl⟩
  | cons a as ih =>
    cases l with
    | nil => simp [prefOf] at h
    | cons b bs =>
      simp only [prefOf, Bool.and_eq_true] at h
      obtain ⟨r, hr⟩ := ih h.2
      obtain rfl : a = b := by simpa using h.1
      exact ⟨r, by simp [hr]⟩

lemma findNamed_eq_some {es : List (List Char)} {l e : List Char}
    (h : findNamed es l = some e) : e ∈ es ∧ prefOf e l = true := by
  induction es with
  | nil => simp [findNamed] at h
  | cons e0 es ih =>
    by_cases hp : prefOf e0 l = true
    · simp only [findNamed, hp, if_true, Option.some.injEq] at h
      subst h
      exact ⟨by simp, hp⟩
    · simp only [findNamed, hp, if_false] at h
      obtain ⟨h1, h2⟩ := ih h
      exact ⟨by simp [h1], h2⟩

lemma entSpan_amp (r : List Char) :
    entSpan (['a', 'm', 'p', ';'] ++ r) = some ['a', 'm', 'p', ';'] := rfl

lemma entSpan_lt (r : List Char) :
    entSpan (['l', 't', ';'] ++ r) = some ['l', 't', ';'] := rfl

lemma entSpan_gt (r : List Char) :
    entSpan (['g', 't', ';'] ++ r) = some ['g', 't', ';'] := rfl

lemma entSpan_apos (r : List Char) :
    entSpan (['a', 'p', 'o', 's', ';'] ++ r) = some ['a', 'p', 'o', 's', ';'] := rfl

lemma entSpan_quot (r : List Char) :
    entSpan (['q', 'u', 'o', 't', ';'] ++ r) = some ['q', 'u', 'o', 't', ';'] := rfl

lemma entSpan_named_stable {e : List Char} (he : e ∈ namedEnts) (r : List Char) :
    entSpan (e ++ r) = some e := by
  simp only [namedEnts, List.mem_cons, List.not_mem_nil, or_false] at he
  rcases he with rfl | rfl | rfl | rfl | rfl
  · exact entSpan_amp r
  · exact entSpan_lt r
  · exact entSpan_gt r
  · exact entSpan_apos r
  · exact entSpan_quot r

lemma takeWhile_dropWhile_append {α : Type} (p : α → Bool) (xs : List α) (b : α)
    (r : List α) (h : ∀ a ∈ xs, p a = true) (hb : p b = false) :
    (xs ++ b :: r).takeWhile p = xs ∧ (xs ++ b :: r).dropWhile p = b :: r := by
  induction xs with
  | nil => simp [List.takeWhile_cons, List.dropWhile_cons, hb]
  | cons x xs ih =>
    have hx : p x = true := h x (by simp)
    have hih := ih (fun a ha => h a (by simp [ha]))
    simp [List.takeWhile_cons, List.dropWhile_cons, hx, hih.1, hih.2]

lemma entSpan_of_findNamed_none {l : List Char}
    (h : findNamed namedEnts l = none) : entSpan l = numEnt l := by
  unfold entSpan
  rw [h]

lemma entSpan_digit_stable {ds : List Char} (hne : ds ≠ [])
    (hds : ∀ c ∈ ds, c.isDigit = true) (r : List Char) :
    entSpan ('#' :: ds ++ ';' :: r) = some ('#' :: ds ++ [';']) := by
  obtain ⟨d, ds2, rfl⟩ := List.exists_cons_of_ne_nil hne
  have hd : d.isDigit = true := hds d (by simp)
  have hx : d ≠ 'x' := by rintro rfl; exact absurd hd (by decide)
  have hnamed : findNamed namedEnts ('#' :: d :: (ds2 ++ ';' :: r)) = none := rfl
  have htd := takeWhile_dropWhile_append Char.isDigit (d :: ds2) ';' r hds (by decide)
  show entSpan ('#' :: d :: (ds2 ++ ';' :: r)) = some ('#' :: d :: (ds2 ++ [';']))
  rw [entSpan_of_findNamed_none hnamed]
  unfold numEnt
  rw [if_pos (by simp), List.tail_cons]
  rw [if_neg (by simp [hx])]
  unfold digitEnt
  simp only [← List.cons_append, htd.1, htd.2]
  simp

lemma entSpan_hex_stable {ds : List Char} (hne : ds ≠ [])
    (hds : ∀ c ∈ ds, isHexChar c = true) (r : List Char) :
    entSpan ('#' :: 'x' :: ds ++ ';' :: r) = some ('#' :: 'x' :: ds ++ [';']) := by
  have hnamed : findNamed namedEnts ('#' :: 'x' :: (ds ++ ';' :: r)) = none := rfl
  have htd := takeWhile_dropWhile_append isHexChar ds ';' r hds (by decide)
  show entSpan ('#' :: 'x' :: (ds ++ ';' :: r)) = some ('#' :: 'x' :: (ds ++ [';']))
  rw [entSpan_of_findNamed_none hnamed]
  unfold numEnt
  rw [if_pos (by simp), List.tail_cons, if_pos (by simp), List.tail_cons]
  unfold hexEnt
  simp only [htd.1, htd.2]
  simp [List.isEmpty_iff, hne]

lemma entSpan_decomp {l e : List Char} (h : entSpan l = some e) :
    (∀ c ∈ e, c ≠ '&') ∧
      ∃ r, l = e ++ r ∧ ∀ r', entSpan (e ++ r') = some e := by
  cases hf : findNamed namedEnts l with
  | some e0 =>
    have h' : some e0 = some e := by rw [← h]; unfold entSpan; rw [hf]
    obtain rfl : e0 = e := by simpa using h'
    obtain ⟨hmem, hpre⟩ := findNamed_eq_some hf
    obtain ⟨r, hr⟩ := prefOf_eq_append hpre
    refine ⟨?_, r, hr, fun r' => entSpan_named_stable hmem r'⟩
    simp only [namedEnts, List.mem_cons, List.not_mem_nil, or_false] at hmem
    rcases hmem with rfl | rfl | rfl | rfl | rfl <;> decide
  | none =>
    have h' : numEnt l = some e := by rw [← h]; exact (entSpan_of_findNamed_none hf).symm
    unfold numEnt at h'
    cases l with
    | nil => simp at h'
    | cons c0 t =>
      have hc0 : c0 = '#' := by
        by_contra hne
        rw [if_neg (by simp [hne])] at h'
        exact Option.noConfusion h'
      subst hc0
      rw [if_pos (by simp), List.tail_cons] at h'
      by_cases hx : t.head? = some 'x'
      · rw [if_pos hx] at h'
        obtain ⟨t2, rfl⟩ : ∃ t2, t = 'x' :: t2 := by
          cases t with
          | nil => simp at hx
          | cons a t2 =>
            simp only [List.head?_cons, Option.some.injEq] at hx
            exact ⟨t2, by rw [hx]⟩
        rw [List.tail_cons] at h'
        unfold hexEnt at h'
        by_cases hem : (t2.takeWhile isHexChar).isEmpty = true
        · rw [if_pos hem] at h'; exact Option.noConfusion h'
        · rw [if_neg hem] at h'
          by_cases hsc : (t2.dropWhile isHexChar).head? = some ';'
          · rw [if_pos hsc] at h'
            obtain rfl : '#' :: 'x' :: t2.takeWhile isHexChar ++ [';'] = e := by
              simpa using h'
            obtain ⟨dw, hdw⟩ : ∃ dw, t2.dropWhile isHexChar = ';' :: dw := by
              cases hd : t2.dropWhile isHexChar with
              | nil => rw [hd] at hsc; simp at hsc
              | cons a dw =>
                rw [hd] at hsc
                simp only [List.head?_cons, Option.some.injEq] at hsc
                exact ⟨dw, by rw [hsc]⟩
            have hne : t2.takeWhile isHexChar ≠ [] := by
              simpa [List.isEmpty_iff] using hem
            have hds : ∀ c ∈ t2.takeWhile isHexChar, isHexChar c = true :=
              fun c hc => List.mem_takeWhile_imp hc
            have ht2 : t2 = t2.takeWhile isHexChar ++ ';' :: dw := by
              conv_lhs => rw [← List.takeWhile_append_dropWhile (p := isHexChar) (l := t2)]
              rw [hdw]
            constructor
            · intro c hc heq
              subst heq
              simp only [List.cons_append, List.mem_cons, List.mem_append,
                List.not_mem_nil, or_false] at hc
              rcases hc with hc | hc | hc | hc
              · exact absurd hc (by decide)
              · exact absurd hc (by decide)
              · exact absurd (hds _ hc) (by decide)
              · exact absurd hc (by decide)
            · refine ⟨dw, ?_, fun r' => ?_⟩
              · conv_lhs => rw [ht2]
                simp
              · have := entSpan_hex_stable hne hds r'
                simpa [List.cons_append, List.append_assoc] using this
          · rw [if_neg hsc] at h'; exact Option.noConfusion h'
      · rw [if_neg hx] at h'
        unfold digitEnt at h'
        by_cases hem : (t.takeWhile Char.isDigit).isEmpty = true
        · rw [if_pos hem] at h'; exact Option.noConfusion h'
        · rw [if_neg hem] at h'
          by_cases hsc : (t.dropWhile Char.isDigit).head? = some ';'
          · rw [if_pos hsc] at h'
            obtain rfl : '#' :: t.takeWhile Char.isDigit ++ [';'] = e := by
              simpa using h'
            obtain ⟨dw, hdw⟩ : ∃ dw, t.dropWhile Char.isDigit = ';' :: dw := by
              cases hd : t.dropWhile Char.isDigit with
              | nil => rw [hd] at hsc; simp at hsc
              | cons a dw =>
                rw [hd] at hsc
                simp only [List.head?_cons, Option.some.injEq] at hsc
                exact ⟨dw, by rw [hsc]⟩
            have hne : t.takeWhile Char.isDigit ≠ [] := by
              simpa [List.isEmpty_iff] using hem
            have hds : ∀ c ∈ t.takeWhile Char.isDigit, c.isDigit = true :=
              fun c hc => List.mem_takeWhile_imp hc
            have ht : t = t.takeWhile Char.isDigit ++ ';' :: dw := by
              conv_lhs => rw [← List.takeWhile_append_dropWhile (p := Char.isDigit) (l := t)]
              rw [hdw]
            constructor
            · intro c hc heq
              subst heq
              simp only [List.cons_append, List.mem_cons, List.mem_append,
                List.not_mem_nil, or_false] at hc
              rcases hc with hc | hc | hc
              · exact absurd hc (by decide)
              · exact absurd (hds _ hc) (by decide)
              · exact absurd hc (by decide)
            · refine ⟨dw, ?_, fun r' => ?_⟩
              · conv_lhs => rw [ht]
                simp
              · have := entSpan_digit_stable hne hds r'
                simpa [List.cons_append, List.append_assoc] using this
          · rw [if_neg hsc] at h'; exact Option.noConfusion h'

lemma escAmp_cons_ne {c : Char} (rest : List Char) (hc : c ≠ '&') :
    escAmp (c :: rest) = c :: escAmp rest := by
  simp only [escAmp]
  rw [if_neg hc]

lemma escAmp_cons_amp_some {rest : List Char} (hs : (entSpan rest).isSome = true) :
    escAmp ('&' :: rest) = '&' :: escAmp rest := by
  simp only [escAmp, if_true]
  rw [if_pos hs]

lemma escAmp_cons_amp_none {rest : List Char} (hs : (entSpan rest).isSome = false) :
    escAmp ('&' :: rest) = '&' :: 'a' :: 'm' :: 'p' :: ';' :: escAmp rest := by
  simp only [escAmp, if_true]
  rw [if_neg (by simp [hs])]

lemma ampOk_cons (c : Char) (rest : List Char) :
    ampOk (c :: rest) = ((c != '&' || (entSpan rest).isSome) && ampOk rest) := rfl

lemma escAmp_append_no_amp {e : List Char} (r : List Char)
    (h : ∀ c ∈ e, c ≠ '&') : escAmp (e ++ r) = e ++ escAmp r := by
  induction e with
  | nil => rfl
  | cons c cs ih =>
    have hc : c ≠ '&' := h c (by simp)
    rw [List.cons_append, escAmp_cons_ne _ hc,
      ih (fun a ha => h a (by simp [ha])), List.cons_append]

lemma ampOk_escAmp (l : List Char) : ampOk (escAmp l) = true := by
  induction l with
  | nil => rfl
  | cons c rest ih =>
    by_cases hc : c = '&'
    · subst hc
      cases hs : entSpan rest with
      | some e =>
        rw [escAmp_cons_amp_some (by simp [hs])]
        obtain ⟨hno, r, hlr, hstable⟩ := entSpan_decomp hs
        have h2 : entSpan (escAmp rest) = some e := by
          rw [hlr, escAmp_append_no_amp _ hno]
          exact hstable (escAmp r)
        rw [ampOk_cons]
        simp [h2, ih]
      | none =>
        rw [escAmp_cons_amp_none (by simp [hs])]
        have h2 : entSpan ('a' :: 'm' :: 'p' :: ';' :: escAmp rest) =
            some ['a', 'm', 'p', ';'] := entSpan_amp (escAmp rest)
        rw [ampOk_cons, ampOk_cons, ampOk_cons, ampOk_cons, ampOk_cons]
        simp [h2, ih]
    · rw [escAmp_cons_ne _ hc, ampOk_cons]
      simp [ih, hc]

lemma escAmp_of_ampOk {l : List Char} (h : ampOk l = true) : escAmp l = l := by
  induction l with
  | nil => rfl
  | cons c rest ih =>
    rw [ampOk_cons, Bool.and_eq_true] at h
    obtain ⟨h1, h2⟩ := h
    by_cases hc : c = '&'
    · subst hc
      have hs : (entSpan rest).isSome = true := by simpa using h1
      rw [escAmp_cons_amp_some hs, ih h2]
    · rw [escAmp_cons_ne _ hc, ih h2]

lemma escAmp_chars {l : List Char} {c : Char} (h : c ∈ escAmp l) :
    c ∈ l ∨ c ∈ ['a', 'm', 'p', ';'] := by
  induction l with
  | nil => simp [escAmp] at h
  | cons x rest ih =>
    by_cases hx : x = '&'
    · subst hx
      cases hs : (entSpan rest).isSome with
      | true =>
        rw [escAmp_cons_amp_some hs] at h
        rcases List.mem_cons.mp h with rfl | h
        · exact Or.inl (by simp)
        · rcases ih h with h | h
          · exact Or.inl (by simp [h])
          · exact Or.inr h
      | false =>
        rw [escAmp_cons_amp_none hs] at h
        simp only [List.mem_cons] at h
        rcases h with rfl | rfl | rfl | rfl | rfl | h
        · exact Or.inl (by simp)
        · exact Or.inr (by simp)
        · exact Or.inr (by simp)
        · exact Or.inr (by simp)
        · exact Or.inr (by simp)
        · rcases ih h with h | h
          · exact Or.inl (by simp [h])
          · exact Or.inr h
    · rw [escAmp_cons_ne _ hx] at h
      rcases List.mem_cons.mp h with rfl | h
      · exact Or.inl (by simp)
      · rcases ih h with h | h
        · exact Or.inl (by simp [h])
        · exact Or.inr h

/-- C9: for every input text, after the sanitizer's ampersand repair every
`&` in the result is followed by a recognized entity reference
(`amp`, `lt`, `gt`, `apos`, `quot`, `#` digits, or `#x` hex digits, each
closed by `;`); in particular a bare `&` not part of an entity is rewritten
to `&amp;`, which an XML parser renders as the literal character `&`. -/
theorem c9_amp_repair_sound :
    (∀ s : String, ampOk (escAmp s.data) = true) ∧
      escAmp "<p>a & b</p>".data = "<p>a &amp; b</p>".data := by
  exact ⟨fun s => ampOk_escAmp s.data, by decide⟩

/-- C10: the sanitization pass (control-character stripping followed by
bare-ampersand escaping, fetch_feeds.py lines 208-211) is idempotent:
applying it to its own output returns that output unchanged. -/
theorem c10_sanitize_pass_idempotent (l : List Char) :
    sanitizePass (sanitizePass l) = sanitizePass l := by
  unfold sanitizePass
  have h1 : stripCtl (escAmp (stripCtl l)) = escAmp (stripCtl l) := by
    apply List.filter_eq_self.mpr
    intro a ha
    rcases escAmp_chars ha with h | h
    · exact (List.mem_filter.mp h).2
    · simp only [List.mem_cons, List.not_mem_nil, or_false] at h
      rcases h with rfl | rfl | rfl | rfl <;> decide
  rw [h1, escAmp_of_ampOk (ampOk_escAmp _)]

/-! ### Date normalization: claim C7 -/

lemma tryFormats_eq_firstSome (strp : String → String → Option String)
    (s : String) (fmts : List String) :
    tryFormats strp s fmts = firstSome (fmts.map (fun fmt => strp fmt s)) := by
  induction fmts with
  | nil => rfl
  | cons f fs ih =>
    cases hf : strp f s with
    | some iso => simp [tryFormats, firstSome, hf]
    | none => simp [tryFormats, firstSome, hf, ih]

/-- C7: `normalize_date` implements exactly the claimed contract: `none` for
`None` or empty input; otherwise the RFC-822/email parse is tried first,
then the fixed sequence of ISO-8601-like patterns in source order, and the
first full match's ISO serialization is returned; if every attempt fails
the raw input string comes back unchanged.  The function is a total Lean
function, so no input can raise.  (The two standard-library parsers appear
as the parameters `rfc` and `strp`; on the concrete inputs of the claim,
such as "not a date", both fail, which is the `firstSome = none`
pass-through case.) -/
theorem c7_normalize_date_contract (rfc : String → Option String)
    (strp : String → String → Option String) (raw : Option String) :
    normalize_date rfc strp raw = claimDateContract rfc strp raw := by
  cases raw with
  | none => rfl
  | some s =>
    by_cases hs : s = ""
    · simp [normalize_date, claimDateContract, hs]
    · simp only [normalize_date, claimDateContract, if_neg hs]
      cases hr : rfc (pyStripStr s) with
      | some iso => rfl
      | none =>
        rw [tryFormats_eq_firstSome]
        have hcons : firstSome (none ::
            isoFormats.map (fun fmt => strp fmt (pyStripStr s))) =
            firstSome (isoFormats.map (fun fmt => strp fmt (pyStripStr s))) := rfl
        rw [hcons]
        cases ht : firstSome (isoFormats.map (fun fmt => strp fmt (pyStripStr s))) with
        | some iso => rfl
        | none => rfl

/-! ### Conditional fetch: claims C3 and C5 -/

/-- C3: when the server answers HTTP 304 and a prior cache entry exists,
the result reuses the prior entry's article list verbatim, carries the
prior validators unchanged, reports no error, and sets `not_modified`. -/
theorem c3_not_modified_reuses_cache (xmlParse : String → Except String Elem)
    (unescape : String → String) (rfc : String → Option String)
    (strp : String → String → Option String) (feed : FeedConfig)
    (c : CacheEntry) :
    (fetch_feed xmlParse unescape rfc strp .httpNotModified feed (some c)).not_modified
        = true ∧
    (fetch_feed xmlParse unescape rfc strp .httpNotModified feed (some c)).articles
        = c.articles ∧
    (fetch_feed xmlParse unescape rfc strp .httpNotModified feed (some c)).etag
        = c.etag ∧
    (fetch_feed xmlParse unescape rfc strp .httpNotModified feed (some c)).last_modified
        = c.last_modified ∧
    (fetch_feed xmlParse unescape rfc strp .httpNotModified feed (some c)).error
        = none :=
  ⟨rfl, rfl, rfl, rfl, rfl⟩

/-- C5: `fetch_feed` is a total function into `FetchResult` (the embedding
of the fact that no outcome raises to the caller), and its `error` field is
set exactly on the failure modes: a transport/HTTP failure, or a fetched
body whose sanitized text fails XML parsing. -/
theorem c5_fetch_feed_error_iff (xmlParse : String → Except String Elem)
    (unescape : String → String) (rfc : String → Option String)
    (strp : String → String → Option String) (outcome : HttpOutcome)
    (feed : FeedConfig) (cache : Option CacheEntry) :
    (fetch_feed xmlParse unescape rfc strp outcome feed cache).error.isSome = true ↔
      (∃ m, outcome = .httpFailure m) ∨
        ∃ b et lm e, outcome = .httpSuccess b et lm ∧
          xmlParse (sanitize b) = .error e := by
  cases outcome with
  | httpNotModified => simp [fetch_feed]
  | httpFailure m => simp [fetch_feed]
  | httpSuccess b et lm =>
    cases hx : xmlParse (sanitize b) with
    | error e => simp [fetch_feed, hx]
    | ok root => simp [fetch_feed, hx]

/-! ### Article invariants: claim C8 -/

lemma pyOr_ne_empty (x : Option String) {d : String} (hd : d ≠ "") :
    pyOr x d ≠ "" := by
  cases x with
  | none => simpa [pyOr] using hd
  | some s =>
    by_cases hs : s = ""
    · simpa [pyOr, hs] using hd
    · simpa [pyOr, hs] using hs

lemma atomLink_ne_empty (ls : List Elem) (acc : String) (hacc : acc ≠ "") :
    atomLink ls acc ≠ "" := by
  induction ls generalizing acc with
  | nil => exact hacc
  | cons l ls ih =>
    simp only [atomLink]
    split
    · next hcond =>
      simpa using ((Bool.and_eq_true _ _).mp hcond).2
    · next =>
      apply ih
      split
      · next h2 => simpa using ((Bool.and_eq_true _ _).mp h2).1
      · exact hacc

lemma pyTake_length_le (s : String) (n : Nat) : (pyTake s n).length ≤ n :=
  List.length_take_le n s.data

/-- C8: every article either parser produces has a non-empty title
("Untitled" fallback), a non-empty link ("#" fallback), and an excerpt of
at most `EXCERPT_LEN = 300` characters of the sanitized plain text. -/
theorem c8_article_invariants (unescape : String → String)
    (rfc : String → Option String) (strp : String → String → Option String)
    (root : Elem) (nm : String) (a : Article)
    (h : a ∈ parse_rss unescape rfc strp root nm ∨
      a ∈ parse_atom unescape rfc strp root nm) :
    a.title ≠ "" ∧ a.link ≠ "" ∧ a.excerpt.length ≤ EXCERPT_LEN := by
  rcases h with h | h
  · obtain ⟨item, _, rfl⟩ := List.mem_map.mp h
    exact ⟨pyOr_ne_empty _ (by decide), pyOr_ne_empty _ (by decide),
      pyTake_length_le _ _⟩
  · obtain ⟨entry, _, rfl⟩ := List.mem_map.mp h
    exact ⟨pyOr_ne_empty _ (by decide), atomLink_ne_empty _ _ (by decide),
      pyTake_length_le _ _⟩

/-- Witness for C8 at a concrete one-item RSS document. -/
theorem c8_article_invariants_witness :
    wArticle.title ≠ "" ∧ wArticle.link ≠ "" ∧
      wArticle.excerpt.length ≤ EXCERPT_LEN :=
  c8_article_invariants idUnescape noRfc noStrp oneItemRoot "f" wArticle
    (Or.inl (by decide))

/-! ### Atom link selection: claim C6 -/

lemma atomLink_eq_general (ls : List Elem) : ∀ acc : String,
    atomLink ls acc =
      match ls.find? claimQual with
      | some l => attrGet l "href" ""
      | none =>
        if acc = "#" then
          match ls.find? fbHref with
          | some l => attrGet l "href" ""
          | none => "#"
        else acc := by
  induction ls with
  | nil =>
    intro acc
    by_cases h : acc = "#" <;> simp [atomLink, List.find?_nil, h]
  | cons l ls ih =>
    intro acc
    by_cases hq : ((attrGet l "rel" "alternate" == "alternate") &&
        (attrGet l "href" "" != "")) = true
    · rw [show atomLink (l :: ls) acc = attrGet l "href" "" by
        simp only [atomLink]; rw [if_pos hq]]
      rw [List.find?_cons_of_pos _ (show claimQual l = true from hq)]
    · rw [show atomLink (l :: ls) acc =
          atomLink ls
            (if (attrGet l "href" "" != "") && (acc == "#") then attrGet l "href" ""
             else acc) by
        simp only [atomLink]; rw [if_neg hq]]
      rw [ih]
      rw [List.find?_cons_of_neg _ (show ¬claimQual l = true from hq)]
      cases hfq : ls.find? claimQual with
      | some l' => rfl
      | none =>
        by_cases hacc : acc = "#"
        · subst hacc
          by_cases hh : attrGet l "href" "" = ""
          · rw [List.find?_cons_of_neg _ (by simp [fbHref, hh])]
            simp [hh]
          · by_cases hh2 : attrGet l "href" "" = "#"
            · rw [List.find?_cons_of_neg _ (by simp [fbHref, hh2])]
              simp [hh, hh2]
            · rw [List.find?_cons_of_pos _ (by simp [fbHref, hh, hh2])]
              simp [hh, hh2]
        · simp [hacc]

lemma atomLink_hash (ls : List Elem) : atomLink ls "#" = codeAtomLink ls := by
  rw [atomLink_eq_general]
  unfold codeAtomLink
  cases ls.find? claimQual with
  | some l => rfl
  | none => simp

/-- C6 (amended): for every Atom document, each produced article's link is
the first link element (in document order, among the entry's `link`
descendants) whose `rel` is absent or `"alternate"` and whose `href` is
non-empty; failing that, the first link element whose `href` is non-empty
AND different from `"#"`; failing that, `"#"`.  (The original claim's
fallback — the first link with any non-empty `href` — is wrong when that
href is literally `"#"`, the loop's sentinel; see the counterexample.) -/
theorem c6_atom_link_selection (unescape : String → String)
    (rfc : String → Option String) (strp : String → String → Option String)
    (root : Elem) (nm : String) :
    (parse_atom unescape rfc strp root nm).map (·.link) =
      (iterTag (nsOf root ++ "entry") root).map
        (fun e => codeAtomLink (iterTag (nsOf root ++ "link") e)) := by
  unfold parse_atom
  rw [List.map_map]
  apply List.map_congr_left
  intro e _
  exact atomLink_hash _

/-- C6 counterexample: in an entry whose links are
`<link rel="self" href="#"/><link rel="self" href="B"/>` no link passes the
preferred test, and the claim's fallback (first non-empty `href`) picks the
first link, giving `"#"`; the code returns `"B"`, because storing `"#"`
into the running variable leaves it indistinguishable from unset and the
second link overwrites it. -/
theorem c6_atom_link_cex :
    (parse_atom idUnescape noRfc noStrp hashAtomRoot "f").map (·.link) = ["B"] ∧
      claimAtomLink (iterTag "link" hashEntry) = "#" ∧
      (parse_atom idUnescape noRfc noStrp hashAtomRoot "f").map (·.link) ≠
        [claimAtomLink (iterTag "link" hashEntry)] := by
  refine ⟨by decide, by decide, by decide⟩

/-! ### RSS item iteration: claim C2 -/

mutual

lemma iterTag_eq_filter (tag : String) : (e : Elem) →
    iterTag tag e = (preorder e).filter (fun el => el.tag == tag)
  | .mk t a x cs => by
    by_cases h : t = tag <;>
      simp [iterTag, preorder, List.filter_cons, Elem.tag, h,
        iterTagList_eq_filter tag cs]

lemma iterTagList_eq_filter (tag : String) : (cs : List Elem) →
    iterTagList tag cs = (preorderList cs).filter (fun el => el.tag == tag)
  | [] => rfl
  | c :: cs => by
    simp [iterTagList, preorderList, List.filter_append,
      iterTag_eq_filter tag c, iterTagList_eq_filter tag cs]

end

/-- C2 (amended): the RSS parser produces exactly one article per element
whose tag is exactly `item` — un-namespaced — at any nesting depth, in
document order, each built by the loop body from its item.  (Against the
original claim, an `item` element carrying an XML namespace is NOT matched:
ElementTree tags embed the namespace as `{uri}item`, and `root.iter("item")`
compares the full tag; see the counterexample.) -/
theorem c2_rss_item_articles (unescape : String → String)
    (rfc : String → Option String) (strp : String → String → Option String)
    (root : Elem) (nm : String) :
    parse_rss unescape rfc strp root nm =
      ((preorder root).filter (fun el => el.tag == "item")).map
        (rssItemArticle unescape rfc strp nm) := by
  unfold parse_rss
  rw [iterTag_eq_filter]

/-- C2 counterexample: a document whose single item element is namespaced
(`{urn:example}item`) has one `item` element in the claim's
namespace-agnostic sense, yet the parser produces zero articles. -/
theorem c2_namespaced_item_cex :
    (parse_rss idUnescape noRfc noStrp nsItemRoot "f").length = 0 ∧
      claimItemCountAnyNS nsItemRoot = 1 ∧
      (parse_rss idUnescape noRfc noStrp nsItemRoot "f").length ≠
        claimItemCountAnyNS nsItemRoot := by
  refine ⟨rfl, rfl, by decide⟩

/-! ### Merge ordering: claim C1 -/

/-- C1 counterexample: the merge loop appends articles in the order results
complete (`as_completed`), so the same two fetch results merged in the two
possible completion orders yield different aggregate orderings; in
completion order `[resB, resA]` the aggregate is `[artB, artA]`, not the
input-feed-order concatenation `[artA, artB]`. -/
theorem c1_completion_order_cex :
    [resB, resA].Perm [resA, resB] ∧
      mergeArticles [resB, resA] = [artB, artA] ∧
      mergeArticles [resA, resB] = [artA, artB] ∧
      mergeArticles [resB, resA] ≠ mergeArticles [resA, resB] := by
  exact ⟨List.Perm.swap _ _ _, rfl, rfl, by decide⟩

/-- C1 (amended): the final aggregate article list is the concatenation of
the per-feed article lists in task completion order (document order within
each feed); two runs of the same feed set that differ only in completion
order therefore produce aggregates that are permutations of each other
(the same articles, grouped by feed), but not necessarily the same list. -/
theorem c1_merge_perm (results results' : List FetchResult)
    (h : results.Perm results') :
    (mergeArticles results).Perm (mergeArticles results') := by
  unfold mergeArticles
  exact List.Perm.flatMap_right (·.articles) h

/-- Witness for C1 (amended) at the two concrete completion orders. -/
theorem c1_merge_perm_witness :
    (mergeArticles [resB, resA]).Perm (mergeArticles [resA, resB]) :=
  c1_merge_perm [resB, resA] [resA, resB] (List.Perm.swap resA resB [])

/-! ### Cache forfeiture on error: claim C4 -/

lemma lookup_filterMap_not_mem {V : Type} (key : FetchResult → String)
    (g : FetchResult → Option V) (xs : List FetchResult) (k : String)
    (hk : k ∉ xs.map key) :
    (xs.filterMap (fun x => (g x).map (fun v => (key x, v)))).lookup k = none := by
  induction xs with
  | nil => rfl
  | cons x xs ih =>
    rw [List.map_cons, List.mem_cons] at hk
    push_neg at hk
    rw [List.filterMap_cons]
    cases hgx : g x with
    | none => exact ih hk.2
    | some v =>
      rw [Option.map_some']
      rw [List.lookup_cons]
      rw [show (k == key x) = false from beq_eq_false_iff_ne.mpr hk.1]
      exact ih hk.2

lemma lookup_filterMap_keyed {V : Type} (key : FetchResult → String)
    (g : FetchResult → Option V) (results : List FetchResult)
    (hnd : (results.map key).Nodup) (r : FetchResult) (hr : r ∈ results) :
    (results.filterMap (fun x => (g x).map (fun v => (key x, v)))).lookup (key r)
      = g r := by
  induction results with
  | nil => cases hr
  | cons x xs ih =>
    rw [List.map_cons, List.nodup_cons] at hnd
    rw [List.filterMap_cons]
    rcases List.mem_cons.mp hr with rfl | hr'
    · cases hgx : g r with
      | none => exact lookup_filterMap_not_mem key g xs (key r) hnd.1
      | some v =>
        rw [Option.map_some', List.lookup_cons]
        rw [show (key r == key r) = true from beq_self_eq_true _]
    · have hkey : key r ≠ key x := by
        intro he
        exact hnd.1 (he ▸ List.mem_map_of_mem key hr')
      cases hgx : g x with
      | none => exact ih hnd.2 hr'
      | some v =>
        rw [Option.map_some', List.lookup_cons]
        rw [show (key r == key x) = false from beq_eq_false_iff_ne.mpr hkey]
        exact ih hnd.2 hr'

lemma mergeFeedCache_eq_keyed (results : List FetchResult) :
    mergeFeedCache results =
      results.filterMap (fun x =>
        ((fun r => if errTruthy r.error then none
          else some ({ etag := r.etag, last_modified := r.last_modified,
                       articles := r.articles } : CacheEntry)) x).map
          (fun v => (x.feed, v))) := by
  unfold mergeFeedCache
  congr 1
  funext x
  by_cases h : errTruthy x.error <;> simp [h]

lemma mergeErrors_eq_keyed (results : List FetchResult) :
    mergeErrors results =
      results.filterMap (fun x =>
        ((fun r => if errTruthy r.error then some (r.error.getD "") else none) x).map
          (fun v => (x.feed, v))) := by
  unfold mergeErrors
  congr 1
  funext x
  by_cases h : errTruthy x.error <;> simp [h]

/-- C4: in a run with distinct feed names where every set error message is
non-empty (as `fetch_feed` produces: parse errors carry the
"XML parse error: " prefix and transport errors carry the exception text),
a feed's name gets a fresh cache entry exactly when its result carries no
error, and an erroring feed instead appears in the error map with its
non-empty message and has no cache entry — regardless of any prior-run
entry, which the merge never consults. -/
theorem c4_cache_iff_no_error (results : List FetchResult)
    (hnd : (results.map (·.feed)).Nodup)
    (hmsg : ∀ r ∈ results, ∀ m, r.error = some m → m ≠ "")
    (r : FetchResult) (hr : r ∈ results) :
    (r.error = none →
      (mergeFeedCache results).lookup r.feed =
        some { etag := r.etag, last_modified := r.last_modified,
               articles := r.articles } ∧
      (mergeErrors results).lookup r.feed = none) ∧
    (∀ m, r.error = some m →
      (mergeFeedCache results).lookup r.feed = none ∧
      (mergeErrors results).lookup r.feed = some m ∧ m ≠ "") := by
  constructor
  · intro he
    have hT : errTruthy r.error = false := by simp [errTruthy, he]
    constructor
    · rw [mergeFeedCache_eq_keyed,
        lookup_filterMap_keyed (·.feed) _ results hnd r hr]
      simp [hT]
    · rw [mergeErrors_eq_keyed,
        lookup_filterMap_keyed (·.feed) _ results hnd r hr]
      simp [hT]
  · intro m hm
    have hne : m ≠ "" := hmsg r hr m hm
    have hT : errTruthy r.error = true := by simp [errTruthy, hm, hne]
    refine ⟨?_, ?_, hne⟩
    · rw [mergeFeedCache_eq_keyed,
        lookup_filterMap_keyed (·.feed) _ results hnd r hr]
      simp [hT]
    · rw [mergeErrors_eq_keyed,
        lookup_filterMap_keyed (·.feed) _ results hnd r hr]
      simp [hm, errTruthy, hne]

/-- Witness for C4: merging a successful feed "A" and an erroring feed "E"
forfeits E's cache entry and records its non-empty message. -/
theorem c4_cache_iff_no_error_witness :
    (mergeFeedCache [resA, resErr]).lookup "E" = none ∧
      (mergeErrors [resA, resErr]).lookup "E" = some "boom" ∧ "boom" ≠ "" :=
  (c4_cache_iff_no_error [resA, resErr] (by decide)
    (by
      intro r hr m hm
      rcases List.mem_cons.mp hr with rfl | hr2
      · exact absurd hm (by simp [resA])
      · rcases List.mem_cons.mp hr2 with rfl | h3
        · obtain rfl : m = "boom" := by
            simpa [resErr] using hm.symm
          decide
        · cases h3)
    resErr (by decide)).2 "boom" rfl

end Feed
